import Mathlib

/-!
Verification of the governance-document analysis pipeline.

The development shallowly embeds the pipeline's pure logic:

* `Gov.parse_json_response` — BaseAgent.parse_json_response (agents/base.py),
  parametrised by the external JSON decoder (Python json.loads);
* `Gov.filter_documents` — BaseAgent.filter_documents with the static
  AGENT_ACCESS_MATRIX (shared/schemas.py);
* `Gov.framework_analyze` — FrameworkCheckerAgent.analyze (agents/framework_agent.py);
* `Gov.apply_reviews` / `Gov.run_reviewer` — Orchestrator.run_reviewer's
  review-application step (agents/orchestrator.py);
* `Gov.Orchestrator.run` / `Gov.run_analysis` — the orchestration pipeline and
  the background job task (agents/orchestrator.py, backend/app/routers/agents.py),
  with every external effect (model calls, database writes) supplied as an
  explicit environment of outcomes;
* `Gov.update_finding_status` — the human-review status patch
  (backend/app/routers/findings.py).

Python strings are modelled as lists of characters (`Gov.Str`), so that the
character-level operations of the parser (strip, split on newline, find) are
faithful and executable.
-/

namespace Gov

/-- Python strings, modelled as lists of characters. -/
abbrev Str := List Char

/-- Whitespace characters removed by Python str.strip (the ASCII whitespace set). -/
def pyWs (c : Char) : Bool :=
  c = ' ' || c = '\t' || c = '\n' || c = '\r' || c = '\x0b' || c = '\x0c'

/-- Python s.strip(): drop whitespace from both ends of the string. -/
def pyStrip (s : Str) : Str :=
  ((s.dropWhile pyWs).reverse.dropWhile pyWs).reverse

/-- Python s.split on the newline separator: split at every newline character. -/
def splitNl : Str → List Str
  | [] => [[]]
  | c :: rest =>
    if c = '\n' then [] :: splitNl rest
    else
      match splitNl rest with
      | [] => [[c]]
      | h :: t => (c :: h) :: t

/-- Python newline.join(lines). -/
def joinNl : List Str → Str
  | [] => []
  | [l] => l
  | l :: ls => l ++ '\n' :: joinNl ls

/-- Python s.startswith(p). -/
def pyStartsWith (p s : Str) : Bool := p.isPrefixOf s

/-- Python s.find(c) for a single character: index of the first occurrence. -/
def pyFind (c : Char) (s : Str) : Option Nat := s.findIdx? (· = c)

/-- Python s.rfind(c) for a single character: index of the last occurrence. -/
def pyRfind (c : Char) (s : Str) : Option Nat :=
  match s.reverse.findIdx? (· = c) with
  | none => none
  | some i => some (s.length - 1 - i)

/-- JSON values as produced by Python json.loads: objects keep their fields as
an association list (insertion order, unique keys). -/
inductive Json where
  | null
  | bool (b : Bool)
  | num (q : Rat)
  | str (s : Str)
  | arr (elems : List Json)
  | obj (fields : List (Str × Json))

/-- Lookup of a key in a JSON object's field list (Python dict access). -/
def jsonGet (fields : List (Str × Json)) (k : Str) : Option Json :=
  match fields with
  | [] => none
  | (k', v) :: rest => if k' = k then some v else jsonGet rest k

/-- Python dict key assignment on a JSON object's field list: replace the
value of an existing key, otherwise append the new binding at the end. -/
def jsonSet (fields : List (Str × Json)) (k : Str) (v : Json) : List (Str × Json) :=
  match fields with
  | [] => [(k, v)]
  | (k', v') :: rest => if k' = k then (k, v) :: rest else (k', v') :: jsonSet rest k v

/-- The markdown fence marker of BaseAgent.parse_json_response. -/
def fenceMarker : Str := "```".toList

/-- Fence stripping from BaseAgent.parse_json_response: when the (stripped)
response starts with a fence, drop the first line, drop the last line when it
strips to a bare fence, and rejoin. -/
def stripFences (cleaned : Str) : Str :=
  if pyStartsWith fenceMarker cleaned then
    let lines := (splitNl cleaned).drop 1
    if lines ≠ [] ∧ pyStrip (lines.getLastD []) = fenceMarker then
      joinNl lines.dropLast
    else joinNl lines
  else cleaned

/-- A response wrapped in a markdown code fence: a fence line before the text
and a closing fence line after it. -/
def fenceWrap (s : Str) : Str :=
  fenceMarker ++ '\n' :: (s ++ '\n' :: fenceMarker)

/-- The recovery substring of BaseAgent.parse_json_response: the slice from
the first opening bracket to the last closing bracket, when both exist. -/
def bracketSlice (s : Str) : Option Str :=
  match pyFind '[' s, pyRfind ']' s with
  | some st, some en => some ((s.drop st).take (en + 1 - st))
  | _, _ => none

/-- BaseAgent.parse_json_response, parametrised by the external JSON decoder
(Python json.loads, none modelling a JSONDecodeError). The returned value is
what the Python function returns; the empty finding list is Json.arr []. -/
def parse_json_response (decode : Str → Option Json) (text : Str) : Json :=
  let cleaned := stripFences (pyStrip text)
  match decode cleaned with
  | some result =>
    match result with
    | .obj fields =>
      match jsonGet fields "findings".toList with
      | some v => v
      | none => .arr [result]
    | .arr xs => .arr xs
    | other => .arr [other]
  | none =>
    match bracketSlice cleaned with
    | some sub =>
      match decode sub with
      | some r => r
      | none => .arr []
    | none => .arr []

/-- shared/schemas.py AgentType. -/
inductive AgentType where
  | minutes_analyzer
  | framework_checker
  | coi_detector
  | reviewer
  | cross_document
deriving DecidableEq

/-- shared/schemas.py DocumentType. -/
inductive DocumentType where
  | minutes
  | policy
  | framework
  | disclosure
  | other
deriving DecidableEq

/-- The string value of a document type (the Python enum value). -/
def DocumentType.value : DocumentType → String
  | .minutes => "minutes"
  | .policy => "policy"
  | .framework => "framework"
  | .disclosure => "disclosure"
  | .other => "other"

/-- One entry of the agent access matrix (shared/schemas.py). -/
structure AccessRules where
  can_read : List DocumentType
  can_write : List String
  restrictions : String
deriving DecidableEq

/-- shared/schemas.py AGENT_ACCESS_MATRIX: the static access table. The
reviewer has no entry, exactly as in the source dictionary. -/
def AGENT_ACCESS_MATRIX : AgentType → Option AccessRules
  | .minutes_analyzer =>
    some ⟨[.minutes],
      ["decisions", "risks", "action_items", "voting_records"],
      "No external docs access"⟩
  | .framework_checker =>
    some ⟨[.minutes, .policy, .framework],
      ["gap_analysis"],
      "No compliance verdicts"⟩
  | .coi_detector =>
    some ⟨[.minutes, .disclosure],
      ["coi_signals"],
      "Non-accusatory language only"⟩
  | .cross_document =>
    some ⟨[.minutes, .policy, .framework, .disclosure, .other],
      ["cross_document_patterns"],
      "Read-only analysis across documents"⟩
  | .reviewer => none

/-- BaseAgent.access_rules: matrix lookup with an empty default. -/
def access_rules (a : AgentType) : AccessRules :=
  (AGENT_ACCESS_MATRIX a).getD ⟨[], [], ""⟩

/-- The allowed doc_type string values of an agent (allowed_type_values in
BaseAgent.filter_documents). -/
def allowed_type_values (a : AgentType) : List String :=
  (access_rules a).can_read.map DocumentType.value

/-- A document record as handed to the agents by run_analysis
(backend/app/routers/agents.py). -/
structure Document where
  id : String
  filename : String
  doc_type : String
  content : String
deriving DecidableEq

/-- The strict type filter of BaseAgent.filter_documents (the local variable
named filtered). -/
def strict_filtered (a : AgentType) (documents : List Document) : List Document :=
  documents.filter (fun d => (allowed_type_values a).contains d.doc_type)

/-- BaseAgent.filter_documents: enforce the access matrix, falling back to the
full input when the strict filter is empty and the input is not. -/
def filter_documents (a : AgentType) (documents : List Document) : List Document :=
  let filtered := strict_filtered a documents
  if filtered.isEmpty && !documents.isEmpty then documents else filtered

/-- The outcome of one BaseAgent.run invocation: the skip branch taken when
filtering leaves no documents, a completed analysis, or a re-raised analysis
exception. -/
inductive RunOutcome where
  | skipped
  | completed (findings : List Json)
  | errored (msg : String)

/-- BaseAgent.run: filter the documents, skip (returning the empty finding
list after the "No accessible documents" audit entry) when nothing is
accessible, otherwise analyze; the analysis call is the environment parameter
and an analysis exception is logged and re-raised. The audit field records the
(action, output_summary) pairs written to the audit log. -/
def BaseAgent.run (a : AgentType) (analyze : List Document → Except String (List Json))
    (documents : List Document) : RunOutcome × List (String × String) :=
  let filtered_docs := filter_documents a documents
  let started : List (String × String) :=
    [("agent_started",
      "Processing " ++ toString filtered_docs.length ++ " documents (of "
        ++ toString documents.length ++ " provided)")]
  if filtered_docs.isEmpty then
    (.skipped, started ++ [("agent_skipped", "No accessible documents")])
  else
    match analyze filtered_docs with
    | .ok findings =>
      (.completed findings,
       started ++ [("agent_completed",
         "Generated " ++ toString findings.length ++ " findings")])
    | .error e =>
      (.errored e, started ++ [("agent_error", (e.take 200 : String))])

/-- Python truthiness of a string: empty strings are falsy
(the `if not content.strip()` test on document bodies). -/
def isBlankStr (s : String) : Bool := s.data.all pyWs

/-- Update-or-append insertion keyed by a string (Python dict assignment),
used for the filename-to-document map of FrameworkCheckerAgent.analyze. -/
def docMapInsert (m : List (String × Document)) (d : Document) : List (String × Document) :=
  match m with
  | [] => [(d.filename, d)]
  | (k, v) :: rest =>
    if k = d.filename then (k, d) :: rest else (k, v) :: docMapInsert rest d

/-- Lookup in the filename-to-document map. -/
def docMapGet (m : List (String × Document)) (k : String) : Option Document :=
  match m with
  | [] => none
  | (k', v) :: rest => if k' = k then some v else docMapGet rest k

/-- The per-finding document-id tagging of FrameworkCheckerAgent.analyze:
look the finding's source_document up in the filename map and, on a match,
store the matched document's id under document_id. A finding that is not a
JSON object makes the Python loop raise, modelled as none. -/
def tagDocumentId (doc_map : List (String × Document)) (f : Json) : Option Json :=
  match f with
  | .obj fields =>
    let src : Option String :=
      match jsonGet fields "source_document".toList with
      | some (.str s) => some (String.mk s)
      | some _ => none
      | none => some ""
    match src with
    | some key =>
      match docMapGet doc_map key with
      | some matched_doc =>
        some (.obj (jsonSet fields "document_id".toList (.str matched_doc.id.toList)))
      | none => some (.obj fields)
    | none => some (.obj fields)
  | _ => none

/-- FrameworkCheckerAgent.analyze, parametrised by the JSON decoder and the
external model's response text. The result is the Python return value; none
models an exception raised while iterating a non-list parse result. The
partition predicates, blank-content skips, filename map and document-id
tagging follow the source. -/
def framework_analyze (decode : Str → Option Json) (response_text : Str)
    (documents : List Document) : Option Json :=
  let minutes_docs := documents.filter
    (fun d => d.doc_type = "minutes" || d.doc_type = "other")
  let _framework_docs := documents.filter
    (fun d => d.doc_type = "policy" || d.doc_type = "framework" || d.doc_type = "other")
  if minutes_docs.isEmpty then some (.arr [])
  else
    let kept := minutes_docs.filter (fun d => !isBlankStr d.content)
    if kept.isEmpty then some (.arr [])
    else
      let doc_map := kept.foldl docMapInsert []
      match parse_json_response decode response_text with
      | .arr findings =>
        match findings.mapM (tagDocumentId doc_map) with
        | some tagged => some (.arr tagged)
        | none => none
      | .obj [] => some (.obj [])
      | .str [] => some (.str [])
      | _ => none

/-- A finding dictionary as it flows through the orchestrator: the keys the
pipeline reads or writes, each optional to model key absence. -/
structure FindingD where
  agent_type : Option String := none
  finding_type : Option String := none
  title : Option String := none
  description : Option String := none
  evidence_quote : Option String := none
  source_document : Option String := none
  source_documents : Option (List String) := none
  section_reference : Option String := none
  confidence : Option Rat := none
  original_confidence : Option Rat := none
  severity : Option String := none
  flagged_for_review : Option Bool := none
  review_note : Option String := none
deriving DecidableEq

/-- One reviewer output item (the per-index review dictionary). -/
structure Review where
  finding_index : Option Int := none
  confidence_appropriate : Option Bool := none
  suggested_confidence : Option Rat := none
  flag_for_review : Option Bool := none
  review_note : Option String := none
deriving DecidableEq

/-- The review_map dictionary of Orchestrator.run_reviewer: reviews keyed by
finding_index with a default of -1; a later review with the same index
overwrites an earlier one, so lookup takes the last match. -/
def review_map (reviews : List Review) (i : Int) : Option Review :=
  (reviews.filter (fun r => r.finding_index.getD (-1) = i)).getLast?

/-- The per-finding adjustment of Orchestrator.run_reviewer: replace the
confidence (preserving the old one under original_confidence) when the review
deems it inappropriate and carries a suggestion, and set the flag and note
when the review flags the finding. -/
def apply_review (finding : FindingD) (review : Review) : FindingD :=
  let finding :=
    if !(review.confidence_appropriate.getD true) && review.suggested_confidence.isSome then
      { finding with
        original_confidence := finding.confidence,
        confidence := review.suggested_confidence }
    else finding
  if review.flag_for_review.getD false then
    { finding with
      flagged_for_review := some true,
      review_note := some (review.review_note.getD "") }
  else finding

/-- The review-application loop of Orchestrator.run_reviewer, indexed from
start: each finding at offset i is adjusted by the review mapped to index
start + i, when one exists. -/
def apply_reviews_from (reviews : List Review) (start : Nat) :
    List FindingD → List FindingD
  | [] => []
  | f :: rest =>
    (match review_map reviews (start : Int) with
     | some review => apply_review f review
     | none => f) :: apply_reviews_from reviews (start + 1) rest

/-- The review-application loop of Orchestrator.run_reviewer over the whole
finding list (enumerate starts at index 0). -/
def apply_reviews (all_findings : List FindingD) (reviews : List Review) : List FindingD :=
  apply_reviews_from reviews 0 all_findings

/-- Orchestrator.run_reviewer, parametrised by the outcome of the external
reviewer call (exception message, or the parsed review list): an empty finding
list is returned untouched, a reviewer failure is caught and leaves the
findings unreviewed, and otherwise the reviews are applied in place. -/
def run_reviewer (reviewerResult : Except String (List Review))
    (all_findings : List FindingD) : List FindingD :=
  if all_findings.isEmpty then []
  else
    match reviewerResult with
    | .ok reviews => apply_reviews all_findings reviews
    | .error _ => all_findings

/-- Orchestrator.run_cross_document_analysis, parametrised by the outcome of
the external call (which includes response parsing): fewer than two documents
yield no findings without a call; otherwise each returned finding is tagged as
cross_document and its first source document is promoted to the primary
source-document field. -/
def run_cross_document_analysis (documents : List Document)
    (callResult : Except String (List FindingD)) : Except String (List FindingD) :=
  if documents.length < 2 then .ok []
  else
    callResult.map (fun findings =>
      findings.map (fun f =>
        { f with
          agent_type := some "cross_document",
          source_document := (f.source_documents.getD []).head? }))

/-- One entry of the per-agent result map of Orchestrator.run: a finding count
or an error marker string. -/
inductive AgentResVal where
  | count (n : Nat)
  | err (msg : String)
deriving DecidableEq

/-- The environment of external outcomes one pipeline run consumes: the result
of each analysis agent's run (findings, or the exception it re-raised), the
cross-document call, the reviewer call, and whether persisting each finding
succeeds. -/
structure PipelineEnv where
  minutesResult : Except String (List FindingD)
  frameworkResult : Except String (List FindingD)
  coiResult : Except String (List FindingD)
  crossResult : Except String (List FindingD)
  reviewerResult : Except String (List Review)
  saveOk : FindingD → Bool

/-- The agent loop of Orchestrator.run: accumulate tagged findings and the
per-agent result map entries, in order; a failing agent contributes an
error marker built from the truncated exception message. -/
def runAgents : List (String × Except String (List FindingD)) →
    List FindingD × List (String × AgentResVal)
  | [] => ([], [])
  | (agent_name, .ok findings) :: rest =>
    let tagged := findings.map (fun f => { f with agent_type := some agent_name })
    let (alls, ress) := runAgents rest
    (tagged ++ alls, (agent_name, .count findings.length) :: ress)
  | (agent_name, .error e) :: rest =>
    let (alls, ress) := runAgents rest
    (alls, (agent_name, .err ("error: " ++ e.take 100)) :: ress)

/-- What Orchestrator.run produces: the job-status updates it writes, the
per-agent result map, the persisted findings, and the summary counters. -/
structure OrchestratorOutput where
  statusUpdates : List String
  by_agent : List (String × AgentResVal)
  saved : List FindingD
  total_findings : Nat
  flagged_count : Nat
  findings : List FindingD
deriving DecidableEq

/-- Orchestrator.run: the three analysis agents in their fixed order, the
cross-document pass, the reviewer pass, and per-finding persistence, with
every stage failure caught as in the source. -/
def Orchestrator.run (env : PipelineEnv) (documents : List Document) : OrchestratorOutput :=
  let agents : List (String × Except String (List FindingD)) :=
    [("minutes_analyzer", env.minutesResult),
     ("framework_checker", env.frameworkResult),
     ("coi_detector", env.coiResult)]
  let (all0, results0) := runAgents agents
  let (all1, results1) : List FindingD × List (String × AgentResVal) :=
    match run_cross_document_analysis documents env.crossResult with
    | .ok cross_findings =>
      (all0 ++ cross_findings,
       results0 ++ [("cross_document", AgentResVal.count cross_findings.length)])
    | .error e =>
      (all0, results0 ++ [("cross_document", AgentResVal.err ("error: " ++ e.take 100))])
  let reviewed := run_reviewer env.reviewerResult all1
  let saved := reviewed.filter env.saveOk
  { statusUpdates := ["running", "reviewing"]
    by_agent := results1
    saved := saved
    total_findings := saved.length
    flagged_count := (reviewed.filter (fun f => f.flagged_for_review.getD false)).length
    findings := reviewed }

/-- The final record of one background job run (routers/agents.py
run_analysis): the sequence of job statuses written, the error column, and
the orchestrator output when the pipeline ran. -/
structure JobRun where
  statusTrace : List String
  error : Option String := none
  summary : Option OrchestratorOutput := none
deriving DecidableEq

/-- The final job status: the last status written. -/
def JobRun.status (j : JobRun) : String := j.statusTrace.getLastD "pending"

/-- run_analysis (backend/app/routers/agents.py): mark the job running,
resolve the requested documents, fail outright when none resolve (the
ValueError is caught and written as the job error), otherwise run the
orchestrator and mark the job completed. -/
def run_analysis (env : PipelineEnv) (resolvedDocuments : List Document) : JobRun :=
  if resolvedDocuments.isEmpty then
    { statusTrace := ["running", "failed"],
      error := some "No documents found for the given IDs" }
  else
    let out := Orchestrator.run env resolvedDocuments
    { statusTrace := "running" :: (out.statusUpdates ++ ["completed"]),
      summary := some out }

/-- A stored finding row as the findings router reads it: the flagged bit and
the parsed metadata object (metadata_json). -/
structure StoredFinding where
  flagged_for_review : Bool
  metadata : List (String × Json)

/-- Python dict assignment keyed by a string, for the metadata object. -/
def metaSet (m : List (String × Json)) (k : String) (v : Json) : List (String × Json) :=
  match m with
  | [] => [(k, v)]
  | (k', v') :: rest => if k' = k then (k, v) :: rest else (k', v') :: metaSet rest k v

/-- The mutation of update_finding_status (backend/app/routers/findings.py):
merge review_status and reviewed_at into the metadata and set the flagged bit
exactly for the flagged and disputed statuses. -/
def update_finding_status (row : StoredFinding) (status : String) (now : String) :
    StoredFinding :=
  let meta := metaSet row.metadata "review_status" (.str status.toList)
  let meta := metaSet meta "reviewed_at" (.str now.toList)
  { flagged_for_review := status = "flagged" || status = "disputed",
    metadata := meta }

/-- A policy document used as a concrete input in several witnesses. -/
def docPolicyA : Document := ⟨"doc-1", "policy.pdf", "policy", "policy body"⟩

/-- A framework document used as a concrete input in several witnesses. -/
def docFrameworkB : Document := ⟨"doc-2", "framework.pdf", "framework", "framework body"⟩

/-- A minutes document used as a concrete input in several witnesses. -/
def docMinutesC : Document := ⟨"doc-3", "jan-minutes.pdf", "minutes", "minutes body"⟩

/-- A concrete finding used by the reviewer witnesses. -/
def findW : FindingD :=
  { finding_type := some "decision", title := some "Budget approved",
    confidence := some (9 / 10 : Rat), severity := some "medium" }

/-- A concrete review used by the reviewer witnesses. -/
def revW : Review :=
  { finding_index := some 0, confidence_appropriate := some false,
    suggested_confidence := some (1 / 2 : Rat), flag_for_review := some true,
    review_note := some "Evidence is weak" }

/-- Helper: when the strict filter is empty, filter_documents returns the
full input (the fallback, or the empty list when the input is empty too). -/
theorem filter_documents_of_strict_nil (a : AgentType) (documents : List Document)
    (h : strict_filtered a documents = []) :
    filter_documents a documents = documents := by
  simp only [filter_documents, h]
  cases documents <;> simp

/-- Helper: when the strict filter is non-empty, filter_documents returns it. -/
theorem filter_documents_of_strict_ne_nil (a : AgentType) (documents : List Document)
    (h : strict_filtered a documents ≠ []) :
    filter_documents a documents = strict_filtered a documents := by
  have hE : (strict_filtered a documents).isEmpty = false := by
    cases hc : strict_filtered a documents with
    | nil => exact absurd hc h
    | cons x xs => rfl
  simp [filter_documents, hE]

/-- C5: filter_documents returns exactly the subset of documents whose
declared type is in the agent's readable-type set, except that an empty
subset from a non-empty input yields the full input list instead. -/
theorem filter_documents_contract (a : AgentType) (documents : List Document) :
    (∀ d, d ∈ strict_filtered a documents ↔
      d ∈ documents ∧ d.doc_type ∈ allowed_type_values a) ∧
    (strict_filtered a documents = [] ∧ documents ≠ [] →
      filter_documents a documents = documents) ∧
    (strict_filtered a documents ≠ [] ∨ documents = [] →
      filter_documents a documents = strict_filtered a documents) := by
  refine ⟨fun d => ?_, fun h => ?_, fun h => ?_⟩
  · simp [strict_filtered, List.mem_filter, List.elem_iff]
  · exact filter_documents_of_strict_nil a documents h.1
  · rcases h with h | h
    · exact filter_documents_of_strict_ne_nil a documents h
    · subst h
      simp [filter_documents, strict_filtered]

/-- C9: filter_documents is empty exactly when its input is empty, so the
skip branch of BaseAgent.run (the "No accessible documents" path) is
unreachable whenever the supplied document list is non-empty. -/
theorem filter_documents_empty_iff_and_no_skip (a : AgentType)
    (analyze : List Document → Except String (List Json)) (documents : List Document) :
    (filter_documents a documents = [] ↔ documents = []) ∧
    (documents ≠ [] →
      (BaseAgent.run a analyze documents).1 ≠ RunOutcome.skipped) := by
  have hiff : filter_documents a documents = [] ↔ documents = [] := by
    constructor
    · intro h
      by_cases hs : strict_filtered a documents = []
      · rwa [filter_documents_of_strict_nil a documents hs] at h
      · rw [filter_documents_of_strict_ne_nil a documents hs] at h
        exact absurd h hs
    · intro h
      subst h
      simp [filter_documents, strict_filtered]
  refine ⟨hiff, fun hne => ?_⟩
  have hfd : filter_documents a documents ≠ [] := fun h => hne (hiff.mp h)
  have hE : (filter_documents a documents).isEmpty = false := by
    cases hc : filter_documents a documents with
    | nil => exact absurd hc hfd
    | cons x xs => rfl
  simp only [BaseAgent.run, hE]
  cases analyze (filter_documents a documents) <;> simp

/-- C1 counterexample: for the minutes analyzer (readable set: minutes only)
and two candidate documents of excluded types, the fallback returns both, so
an excluded document appears in the agent's input without being the sole
remaining document. -/
theorem filter_documents_sole_counterexample :
    docPolicyA ∈ filter_documents .minutes_analyzer [docPolicyA, docFrameworkB] ∧
    docPolicyA.doc_type ∉ allowed_type_values .minutes_analyzer ∧
    filter_documents .minutes_analyzer [docPolicyA, docFrameworkB] ≠ [docPolicyA] := by
  decide

/-- C1 (amended): a document whose declared type is excluded from the agent's
readable-type set appears in the agent's input only when strict filtering of
the candidate list is empty, in which case the documented fallback returns
the entire input list (not only a sole document). -/
theorem filter_documents_excluded_only_on_fallback
    (a : AgentType) (documents : List Document) (d : Document)
    (hmem : d ∈ filter_documents a documents)
    (hexcl : d.doc_type ∉ allowed_type_values a) :
    strict_filtered a documents = [] ∧ filter_documents a documents = documents := by
  by_cases hs : strict_filtered a documents = []
  · refine ⟨hs, ?_⟩
    have hne : documents ≠ [] := by
      intro h
      subst h
      simp [filter_documents, strict_filtered] at hmem
    simp [filter_documents, hs, List.isEmpty_iff, hne]
  · exfalso
    have heq : filter_documents a documents = strict_filtered a documents := by
      simp only [filter_documents, List.isEmpty_iff]
      rw [if_neg]
      simp [hs]
    rw [heq] at hmem
    have := (List.mem_filter.mp hmem).2
    rw [List.elem_iff] at this
    exact hexcl this

/-- C1 witness: the amended statement at a concrete input, a single
policy document offered to the minutes analyzer. -/
theorem filter_documents_excluded_only_on_fallback_witness :
    strict_filtered .minutes_analyzer [docPolicyA] = [] ∧
    filter_documents .minutes_analyzer [docPolicyA] = [docPolicyA] :=
  filter_documents_excluded_only_on_fallback .minutes_analyzer [docPolicyA]
    docPolicyA (by decide) (by decide)

/-- C10: the human-review status patch sets the flagged bit exactly for the
statuses flagged and disputed; any other status, including verified, clears
it regardless of the previous bit. -/
theorem update_finding_status_flag_iff (row : StoredFinding) (status now : String) :
    ((update_finding_status row status now).flagged_for_review = true ↔
      status = "flagged" ∨ status = "disputed") ∧
    (status = "verified" →
      (update_finding_status row status now).flagged_for_review = false) := by
  constructor
  · simp [update_finding_status]
  · intro h
    subst h
    simp [update_finding_status]

/-- C6: when the fence-stripped response fails to decode and the substring
between the first opening and last closing bracket (when both exist) also
fails to decode, parse_json_response returns the empty finding list. -/
theorem parse_json_response_malformed_empty (decode : Str → Option Json) (text : Str)
    (h1 : decode (stripFences (pyStrip text)) = none)
    (h2 : ∀ sub, bracketSlice (stripFences (pyStrip text)) = some sub → decode sub = none) :
    parse_json_response decode text = .arr [] := by
  simp only [parse_json_response, h1]
  cases hb : bracketSlice (stripFences (pyStrip text)) with
  | none => simp [hb]
  | some sub => simp [hb, h2 sub hb]

/-- C6 witness: a decoder that always fails and a plain-text response. -/
theorem parse_json_response_malformed_empty_witness :
    parse_json_response (fun _ => none) "I could not find findings.".toList = .arr [] :=
  parse_json_response_malformed_empty (fun _ => none) "I could not find findings.".toList
    rfl (fun _ _ => rfl)

/-- C2: a job whose requested IDs resolve to zero documents ends failed with
the error message, without any orchestrator stage (agents, cross-document
pass, reviewer, persistence) running; and within the modelled failure modes
this is the only way the job ends failed. -/
theorem run_analysis_failed_iff (env : PipelineEnv) (docs : List Document) :
    ((run_analysis env docs).status = "failed" ↔ docs = []) ∧
    (docs = [] →
      (run_analysis env docs).statusTrace = ["running", "failed"] ∧
      (run_analysis env docs).summary = none ∧
      (run_analysis env docs).error = some "No documents found for the given IDs") := by
  by_cases h : docs = []
  · subst h
    refine ⟨?_, fun _ => ?_⟩ <;> simp [run_analysis, JobRun.status]
  · have hE : docs.isEmpty = false := by
      cases docs with
      | nil => exact absurd rfl h
      | cons x xs => rfl
    have hstat : (run_analysis env docs).status = "completed" := by
      simp only [run_analysis, hE, Bool.false_eq_true, if_false, JobRun.status]
      rw [List.getLastD_eq_getLast?, ← List.cons_append, List.getLast?_concat]
      rfl
    refine ⟨?_, fun h' => absurd h' h⟩
    rw [hstat]
    simp [h]

/-- Helper: element i of the review-application loop started at offset start
is the original finding adjusted by the review mapped to start + i. -/
theorem apply_reviews_from_getElem (reviews : List Review) :
    ∀ (l : List FindingD) (start i : Nat),
    (apply_reviews_from reviews start l)[i]? =
      (l[i]?).map (fun f =>
        match review_map reviews ((start + i : Nat) : Int) with
        | some r => apply_review f r
        | none => f) := by
  intro l
  induction l with
  | nil => intro start i; simp [apply_reviews_from]
  | cons f rest ih =>
    intro start i
    cases i with
    | zero => simp [apply_reviews_from]
    | succ j =>
      have harith : start + 1 + j = start + (j + 1) := by omega
      simp only [apply_reviews_from, List.getElem?_cons_succ, ih (start + 1) j, harith]

/-- C3: in the reviewer-application step, a finding with a matching review at
its index becomes apply_review of the two; when the review deems confidence
inappropriate and suggests a value, the pre-review confidence moves to
original_confidence and the suggestion replaces it; when the review flags,
the flagged bit is set and the note attached. -/
theorem run_reviewer_applies_reviews
    (all_findings : List FindingD) (reviews : List Review) (i : Nat)
    (f : FindingD) (r : Review)
    (hf : all_findings[i]? = some f)
    (hr : review_map reviews (i : Int) = some r) :
    (apply_reviews all_findings reviews)[i]? = some (apply_review f r) ∧
    (r.confidence_appropriate.getD true = false → r.suggested_confidence.isSome →
      (apply_review f r).original_confidence = f.confidence ∧
      (apply_review f r).confidence = r.suggested_confidence) ∧
    (r.flag_for_review.getD false = true →
      (apply_review f r).flagged_for_review = some true ∧
      (apply_review f r).review_note = some (r.review_note.getD "")) := by
  refine ⟨?_, fun hc hs => ?_, fun hflag => ?_⟩
  · rw [apply_reviews, apply_reviews_from_getElem reviews all_findings 0 i, hf]
    simp [hr]
  · simp only [apply_review, hc, hs, Bool.not_false, Bool.and_self, if_true]
    cases hfl : r.flag_for_review.getD false <;> simp
  · cases hc : (!(r.confidence_appropriate.getD true) && r.suggested_confidence.isSome) <;>
      simp [apply_review, hc, hflag]

/-- C3 witness: one finding and one matching review at index zero. -/
theorem run_reviewer_applies_reviews_witness :
    (apply_reviews [findW] [revW])[0]? = some (apply_review findW revW) ∧
    (revW.confidence_appropriate.getD true = false → revW.suggested_confidence.isSome →
      (apply_review findW revW).original_confidence = findW.confidence ∧
      (apply_review findW revW).confidence = revW.suggested_confidence) ∧
    (revW.flag_for_review.getD false = true →
      (apply_review findW revW).flagged_for_review = some true ∧
      (apply_review findW revW).review_note = some (revW.review_note.getD "")) :=
  run_reviewer_applies_reviews [findW] [revW] 0 findW revW (by rfl) (by rfl)

/-- C7: when the input list holds no minutes-like document (declared type
minutes or other), the Framework agent's analyze returns the empty finding
list, whatever framework or policy documents are present. -/
theorem framework_analyze_no_minutes (decode : Str → Option Json)
    (response_text : Str) (documents : List Document)
    (h : ∀ d ∈ documents, d.doc_type ≠ "minutes" ∧ d.doc_type ≠ "other") :
    framework_analyze decode response_text documents = some (.arr []) := by
  have hm : documents.filter
      (fun d => d.doc_type = "minutes" || d.doc_type = "other") = [] := by
    rw [List.filter_eq_nil_iff]
    intro d hd
    simp [(h d hd).1, (h d hd).2]
  simp [framework_analyze, hm]

/-- C7 witness: a policy and a framework document, no minutes-like document. -/
theorem framework_analyze_no_minutes_witness :
    framework_analyze (fun _ => none) "[]".toList [docPolicyA, docFrameworkB] =
      some (.arr []) :=
  framework_analyze_no_minutes (fun _ => none) "[]".toList [docPolicyA, docFrameworkB]
    (by decide)

/-- Helper: splitting never yields an empty list of lines. -/
theorem splitNl_ne_nil (s : Str) : splitNl s ≠ [] := by
  cases s with
  | nil => simp [splitNl]
  | cons c rest =>
    simp only [splitNl]
    by_cases h : c = '\n'
    · simp [h]
    · simp only [h, if_false]
      cases hs : splitNl rest <;> simp

/-- Helper: splitting distributes over a newline placed between two strings. -/
theorem splitNl_append (a b : Str) : splitNl (a ++ '\n' :: b) = splitNl a ++ splitNl b := by
  induction a with
  | nil => simp [splitNl]
  | cons c t ih =>
    by_cases h : c = '\n'
    · subst h
      simp [splitNl, ih]
    · cases hs : splitNl t with
      | nil => exact absurd hs (splitNl_ne_nil t)
      | cons h0 t0 =>
        have hl : splitNl (c :: (t ++ '\n' :: b)) = (c :: h0) :: (t0 ++ splitNl b) := by
          simp only [splitNl, h, if_false, ih, hs, List.cons_append]
        have hrhs : splitNl (c :: t) = (c :: h0) :: t0 := by
          simp only [splitNl, h, if_false, hs]
        simp [hl, hrhs]

/-- Helper: joining a line onto a non-empty rest inserts one newline. -/
theorem joinNl_cons_of_ne (l : Str) (ls : List Str) (h : ls ≠ []) :
    joinNl (l :: ls) = l ++ '\n' :: joinNl ls := by
  cases ls with
  | nil => exact absurd rfl h
  | cons x xs => rfl

/-- Helper: joining the lines of a split restores the original string. -/
theorem joinNl_splitNl (s : Str) : joinNl (splitNl s) = s := by
  induction s with
  | nil => rfl
  | cons c rest ih =>
    by_cases h : c = '\n'
    · subst h
      rw [show splitNl ('\n' :: rest) = [] :: splitNl rest from by simp [splitNl]]
      rw [joinNl_cons_of_ne _ _ (splitNl_ne_nil rest), ih]
      rfl
    · cases hs : splitNl rest with
      | nil => exact absurd hs (splitNl_ne_nil rest)
      | cons h0 t0 =>
        have hsp : splitNl (c :: rest) = (c :: h0) :: t0 := by
          simp [splitNl, h, hs]
        rw [hsp]
        rw [hs] at ih
        cases t0 with
        | nil =>
          have hh : h0 = rest := ih
          simp [joinNl, hh]
        | cons y ys =>
          have hih : h0 ++ '\n' :: joinNl (y :: ys) = rest := by
            rw [joinNl_cons_of_ne h0 (y :: ys) (by simp)] at ih
            exact ih
          calc joinNl ((c :: h0) :: y :: ys)
              = (c :: h0) ++ '\n' :: joinNl (y :: ys) :=
                joinNl_cons_of_ne _ _ (by simp)
            _ = c :: (h0 ++ '\n' :: joinNl (y :: ys)) := rfl
            _ = c :: rest := by rw [hih]

/-- Helper: dropWhile leaves a list whose first segment holds no whitespace. -/
theorem dropWhile_append_of_head (l m : Str) (hne : l ≠ [])
    (hws : ∀ c ∈ l, pyWs c = false) : (l ++ m).dropWhile pyWs = l ++ m := by
  cases l with
  | nil => exact absurd rfl hne
  | cons a t =>
    have ha : pyWs a = false := hws a (by simp)
    simp [List.dropWhile_cons, ha]

/-- Helper: a fence-wrapped response has no surrounding whitespace to strip. -/
theorem pyStrip_fenceWrap (s : Str) : pyStrip (fenceWrap s) = fenceWrap s := by
  have h1 : (fenceWrap s).dropWhile pyWs = fenceWrap s :=
    dropWhile_append_of_head fenceMarker ('\n' :: (s ++ '\n' :: fenceMarker))
      (by decide) (by decide)
  have hr : (fenceWrap s).reverse =
      fenceMarker.reverse ++ ('\n' :: (s.reverse ++ '\n' :: fenceMarker.reverse)) := by
    simp [fenceWrap, List.reverse_append]
  have h2 : (fenceWrap s).reverse.dropWhile pyWs = (fenceWrap s).reverse := by
    rw [hr]
    exact dropWhile_append_of_head fenceMarker.reverse _ (by decide) (by decide)
  unfold pyStrip
  rw [h1, h2, List.reverse_reverse]

/-- Helper: fence stripping of a fence-wrapped response recovers the body. -/
theorem stripFences_fenceWrap (s : Str) : stripFences (fenceWrap s) = s := by
  have hsm : splitNl fenceMarker = [fenceMarker] := by decide
  have hsplit : splitNl (fenceWrap s) = fenceMarker :: (splitNl s ++ [fenceMarker]) := by
    show splitNl (fenceMarker ++ '\n' :: (s ++ '\n' :: fenceMarker)) = _
    rw [splitNl_append, splitNl_append, hsm]
    rfl
  have hpre : pyStartsWith fenceMarker (fenceWrap s) = true := by
    show fenceMarker.isPrefixOf (fenceMarker ++ _) = true
    rw [List.isPrefixOf_iff_prefix]
    exact List.prefix_append _ _
  simp only [stripFences, hpre, if_true, hsplit, List.drop_succ_cons, List.drop_zero]
  rw [if_pos ⟨by simp, by rw [List.getLastD_concat]; decide⟩]
  rw [List.dropLast_concat]
  exact joinNl_splitNl s

/-- Helper: a response whose first character is an opening bracket is not
fence-stripped. -/
theorem stripFences_of_head_bracket (t : Str) (h : t.head? = some '[') :
    stripFences t = t := by
  have hpre : pyStartsWith fenceMarker t = false := by
    cases t with
    | nil => simp at h
    | cons a rest =>
      have ha : a = '[' := by simpa using h
      subst ha
      cases hfm : fenceMarker with
      | nil => exact absurd hfm (by decide)
      | cons b bs =>
        have hb : b ≠ '[' := by
          intro hEq
          subst hEq
          have : fenceMarker.head? = some '[' := by rw [hfm]; rfl
          exact absurd this (by decide)
        show (b :: bs).isPrefixOf ('[' :: rest) = false
        have : (b == '[') = false := by
          simp [hb]
        simp [List.isPrefixOf, this]
  simp [stripFences, hpre]

/-- C8: a plain JSON array response wrapped in a markdown code fence parses to
the same finding list as the unwrapped response; the decoder hypotheses state
that the response is JSON-array text (so it begins with an opening bracket
after whitespace) and that the external decoder ignores surrounding
whitespace, as Python json.loads does. -/
theorem parse_json_response_fence_invariant (decode : Str → Option Json)
    (s : Str) (l : List Json)
    (hjson : decode s = some (.arr l))
    (hstrip : decode (pyStrip s) = decode s)
    (hhead : (pyStrip s).head? = some '[') :
    parse_json_response decode (fenceWrap s) = parse_json_response decode s := by
  have h1 : stripFences (pyStrip (fenceWrap s)) = s := by
    rw [pyStrip_fenceWrap, stripFences_fenceWrap]
  have h2 : stripFences (pyStrip s) = pyStrip s := stripFences_of_head_bracket _ hhead
  simp only [parse_json_response, h1, h2, hstrip, hjson]

/-- C8 witness: the empty JSON array and a decoder recognising it. -/
theorem parse_json_response_fence_invariant_witness :
    parse_json_response
        (fun t => if t = "[]".toList then some (.arr []) else none)
        (fenceWrap "[]".toList) =
      parse_json_response
        (fun t => if t = "[]".toList then some (.arr []) else none)
        "[]".toList :=
  parse_json_response_fence_invariant
    (fun t => if t = "[]".toList then some (.arr []) else none)
    "[]".toList [] (by rfl) (by rfl) (by rfl)

/-- Count of findings tagged with a given agent name. -/
def countTag (l : List FindingD) (nm : String) : Nat :=
  (l.filter (fun f => f.agent_type = some nm)).length

/-- The findings one agent loop iteration contributes: on success the agent's
findings tagged with its name, on a caught failure nothing. -/
def agentFindings (nm : String) : Except String (List FindingD) → List FindingD
  | .ok fs => fs.map (fun f => { f with agent_type := some nm })
  | .error _ => []

/-- The per-agent result-map value one agent loop iteration records. -/
def agentResVal : Except String (List FindingD) → AgentResVal
  | .ok fs => .count fs.length
  | .error e => .err ("error: " ++ e.take 100)

/-- The result-map value the cross-document stage records. -/
def crossResVal (documents : List Document)
    (cr : Except String (List FindingD)) : AgentResVal :=
  match run_cross_document_analysis documents cr with
  | .ok fs => .count fs.length
  | .error e => .err ("error: " ++ e.take 100)

/-- The name of each of the three analysis agents, in pipeline order. -/
def agentName : Fin 3 → String
  | 0 => "minutes_analyzer"
  | 1 => "framework_checker"
  | 2 => "coi_detector"

/-- The environment outcome of each of the three analysis agents. -/
def agentResult (env : PipelineEnv) : Fin 3 → Except String (List FindingD)
  | 0 => env.minutesResult
  | 1 => env.frameworkResult
  | 2 => env.coiResult

/-- Helper: the reviewer adjustment never changes a finding's agent tag. -/
theorem apply_review_agent_type (f : FindingD) (r : Review) :
    (apply_review f r).agent_type = f.agent_type := by
  simp only [apply_review]
  by_cases h1 : (!(r.confidence_appropriate.getD true) && r.suggested_confidence.isSome) = true <;>
    by_cases h2 : r.flag_for_review.getD false = true <;>
      simp [h1, h2]

/-- Helper: the review-application loop preserves per-agent finding counts. -/
theorem countTag_apply_reviews_from (reviews : List Review) (nm : String) :
    ∀ (l : List FindingD) (start : Nat),
    countTag (apply_reviews_from reviews start l) nm = countTag l nm := by
  intro l
  induction l with
  | nil => intro start; rfl
  | cons f rest ih =>
    intro start
    have hat : (match review_map reviews (start : Int) with
        | some review => apply_review f review
        | none => f).agent_type = f.agent_type := by
      cases review_map reviews (start : Int) with
      | none => rfl
      | some review => exact apply_review_agent_type f review
    have ih' := ih (start + 1)
    simp only [countTag] at ih' ⊢
    simp only [apply_reviews_from, List.filter_cons, hat]
    by_cases hp : f.agent_type = some nm <;> simp [hp, ih']

/-- Helper: the reviewer stage preserves per-agent finding counts. -/
theorem countTag_run_reviewer (rr : Except String (List Review))
    (l : List FindingD) (nm : String) :
    countTag (run_reviewer rr l) nm = countTag l nm := by
  by_cases hl : l.isEmpty
  · have : l = [] := by
      cases l with
      | nil => rfl
      | cons x xs => simp at hl
    subst this
    cases rr <;> simp [run_reviewer]
  · have hE : l.isEmpty = false := by
      cases hv : l.isEmpty with
      | false => rfl
      | true => exact absurd hv hl
    cases rr with
    | ok reviews =>
      simp only [run_reviewer, hE, Bool.false_eq_true, if_false]
      exact countTag_apply_reviews_from reviews nm l 0
    | error e => simp [run_reviewer, hE]

/-- Helper: per-agent counts distribute over concatenation. -/
theorem countTag_append (a b : List FindingD) (nm : String) :
    countTag (a ++ b) nm = countTag a nm + countTag b nm := by
  simp [countTag, List.filter_append]

/-- Helper: a successful agent's tagged findings all count for its name. -/
theorem countTag_agentFindings_self (nm : String) (fs : List FindingD) :
    countTag (agentFindings nm (.ok fs)) nm = fs.length := by
  simp only [agentFindings, countTag]
  induction fs with
  | nil => rfl
  | cons f rest ih => simp [List.filter_cons, ih]

/-- Helper: an agent's contribution counts zero for any other agent name. -/
theorem countTag_agentFindings_other (nm' nm : String)
    (r : Except String (List FindingD)) (h : nm' ≠ nm) :
    countTag (agentFindings nm' r) nm = 0 := by
  cases r with
  | error e => rfl
  | ok fs =>
    simp only [agentFindings, countTag]
    induction fs with
    | nil => rfl
    | cons f rest ih => simp [List.filter_cons, h, ih]

/-- Helper: the cross-document stage's findings count zero for any of the
three analysis agent names. -/
theorem countTag_cross_zero (documents : List Document)
    (cr : Except String (List FindingD)) (nm : String)
    (h : nm ≠ "cross_document") :
    ∀ fs, run_cross_document_analysis documents cr = .ok fs → countTag fs nm = 0 := by
  intro fs hfs
  by_cases hlen : documents.length < 2
  · unfold run_cross_document_analysis at hfs
    rw [if_pos hlen] at hfs
    injection hfs with hfs'
    subst hfs'
    rfl
  · unfold run_cross_document_analysis at hfs
    rw [if_neg hlen] at hfs
    cases cr with
    | error e => simp [Except.map] at hfs
    | ok xs =>
      simp only [Except.map] at hfs
      injection hfs with hfs'
      subst hfs'
      simp only [countTag]
      induction xs with
      | nil => rfl
      | cons x rest ih => simp [List.filter_cons, Ne.symm h, ih]

/-- Helper: the empty list counts zero for any agent name. -/
theorem countTag_nil (nm : String) : countTag [] nm = 0 := rfl

/-- Helper: the per-agent result map of one pipeline run lists the three
analysis agents in order followed by the cross-document entry, each carrying
its count or error marker. -/
theorem orchestrator_run_by_agent (env : PipelineEnv) (documents : List Document) :
    (Orchestrator.run env documents).by_agent =
      [("minutes_analyzer", agentResVal env.minutesResult),
       ("framework_checker", agentResVal env.frameworkResult),
       ("coi_detector", agentResVal env.coiResult),
       ("cross_document", crossResVal documents env.crossResult)] := by
  cases h1 : env.minutesResult <;> cases h2 : env.frameworkResult <;>
    cases h3 : env.coiResult <;>
      cases hc : run_cross_document_analysis documents env.crossResult <;>
        simp [Orchestrator.run, runAgents, agentResVal, crossResVal, h1, h2, h3, hc]

/-- Helper: when every save succeeds, the persisted findings count for each
analysis agent name exactly what that agent contributed. -/
theorem countTag_orchestrator_saved (env : PipelineEnv) (documents : List Document)
    (nm : String) (hnm : nm ≠ "cross_document")
    (hsave : ∀ f, env.saveOk f = true) :
    countTag (Orchestrator.run env documents).saved nm =
      countTag (agentFindings "minutes_analyzer" env.minutesResult) nm
      + countTag (agentFindings "framework_checker" env.frameworkResult) nm
      + countTag (agentFindings "coi_detector" env.coiResult) nm := by
  have hfs : ∀ (l : List FindingD), l.filter env.saveOk = l :=
    fun l => List.filter_eq_self.mpr (fun a _ => hsave a)
  cases hc : run_cross_document_analysis documents env.crossResult with
  | ok crossFs =>
    have hzero : countTag crossFs nm = 0 :=
      countTag_cross_zero documents env.crossResult nm hnm crossFs hc
    cases h1 : env.minutesResult <;> cases h2 : env.frameworkResult <;>
      cases h3 : env.coiResult <;>
        simp [Orchestrator.run, runAgents, h1, h2, h3, hc, hfs,
          countTag_run_reviewer, countTag_append, countTag_nil, agentFindings, hzero] <;>
          omega
  | error e =>
    cases h1 : env.minutesResult <;> cases h2 : env.frameworkResult <;>
      cases h3 : env.coiResult <;>
        simp [Orchestrator.run, runAgents, h1, h2, h3, hc, hfs,
          countTag_run_reviewer, countTag_append, countTag_nil, agentFindings] <;>
          omega

/-- Helper: a successful agent's entry in the result map is its finding count
and, when every save succeeds, exactly its findings are persisted under its
agent name. -/
theorem agent_ok_lookup_and_saved (env : PipelineEnv) (documents : List Document)
    (hsave : ∀ f, env.saveOk f = true) (j : Fin 3) (fs : List FindingD)
    (hok : agentResult env j = .ok fs) :
    (Orchestrator.run env documents).by_agent.lookup (agentName j) =
      some (.count fs.length) ∧
    countTag (Orchestrator.run env documents).saved (agentName j) = fs.length := by
  fin_cases j
  · simp only [agentResult] at hok
    refine ⟨?_, ?_⟩
    · rw [orchestrator_run_by_agent]
      simp [List.lookup, agentName, hok, agentResVal]
    · simp only [agentName]
      rw [countTag_orchestrator_saved env documents _ (by decide) hsave, hok,
        countTag_agentFindings_self,
        countTag_agentFindings_other "framework_checker" "minutes_analyzer" _ (by decide),
        countTag_agentFindings_other "coi_detector" "minutes_analyzer" _ (by decide)]
      omega
  · simp only [agentResult] at hok
    refine ⟨?_, ?_⟩
    · rw [orchestrator_run_by_agent]
      simp [List.lookup, agentName, hok, agentResVal]
    · simp only [agentName]
      rw [countTag_orchestrator_saved env documents _ (by decide) hsave, hok,
        countTag_agentFindings_self,
        countTag_agentFindings_other "minutes_analyzer" "framework_checker" _ (by decide),
        countTag_agentFindings_other "coi_detector" "framework_checker" _ (by decide)]
      omega
  · simp only [agentResult] at hok
    refine ⟨?_, ?_⟩
    · rw [orchestrator_run_by_agent]
      simp [List.lookup, agentName, hok, agentResVal]
    · simp only [agentName]
      rw [countTag_orchestrator_saved env documents _ (by decide) hsave, hok,
        countTag_agentFindings_self,
        countTag_agentFindings_other "minutes_analyzer" "coi_detector" _ (by decide),
        countTag_agentFindings_other "framework_checker" "coi_detector" _ (by decide)]
      omega

/-- C4: when one analysis agent raises, the exception is absorbed at its call
site: the job still completes, the failing agent's entry in the per-agent map
is the truncated error marker, and every non-failing agent's findings are
counted in the map and persisted under its name. -/
theorem orchestrator_agent_failure_nonfatal (env : PipelineEnv)
    (docs : List Document) (i : Fin 3) (e : String)
    (hd : docs ≠ [])
    (hsave : ∀ f, env.saveOk f = true)
    (hfail : agentResult env i = .error e) :
    (run_analysis env docs).status = "completed" ∧
    (run_analysis env docs).summary = some (Orchestrator.run env docs) ∧
    (Orchestrator.run env docs).by_agent.lookup (agentName i) =
      some (.err ("error: " ++ e.take 100)) ∧
    ∀ j : Fin 3, j ≠ i → ∀ fs, agentResult env j = .ok fs →
      (Orchestrator.run env docs).by_agent.lookup (agentName j) =
        some (.count fs.length) ∧
      countTag (Orchestrator.run env docs).saved (agentName j) = fs.length := by
  have hE : docs.isEmpty = false := by
    cases docs with
    | nil => exact absurd rfl hd
    | cons x xs => rfl
  refine ⟨?_, ?_, ?_, fun j _ fs hok => agent_ok_lookup_and_saved env docs hsave j fs hok⟩
  · simp only [run_analysis, hE, Bool.false_eq_true, if_false, JobRun.status]
    rw [List.getLastD_eq_getLast?, ← List.cons_append, List.getLast?_concat]
    rfl
  · simp [run_analysis, hE]
  · rw [orchestrator_run_by_agent]
    fin_cases i <;> simp only [agentResult] at hfail <;>
      simp [List.lookup, agentName, hfail, agentResVal]

/-- A concrete pipeline environment in which the minutes agent raises and the
framework agent succeeds with one finding. -/
def envW : PipelineEnv :=
  { minutesResult := .error "minutes model call failed",
    frameworkResult := .ok [findW],
    coiResult := .ok [],
    crossResult := .ok [],
    reviewerResult := .ok [],
    saveOk := fun _ => true }

/-- The concrete document list used by the pipeline witness. -/
def docsW : List Document := [docMinutesC, docPolicyA]

/-- C4 witness: the pipeline with a failing minutes agent at a concrete
two-document input. -/
theorem orchestrator_agent_failure_nonfatal_witness :
    (run_analysis envW docsW).status = "completed" ∧
    (run_analysis envW docsW).summary = some (Orchestrator.run envW docsW) ∧
    (Orchestrator.run envW docsW).by_agent.lookup (agentName 0) =
      some (.err ("error: " ++ "minutes model call failed".take 100)) ∧
    (∀ j : Fin 3, j ≠ 0 → ∀ fs, agentResult envW j = .ok fs →
      (Orchestrator.run envW docsW).by_agent.lookup (agentName j) =
        some (.count fs.length) ∧
      countTag (Orchestrator.run envW docsW).saved (agentName j) = fs.length) :=
  orchestrator_agent_failure_nonfatal envW docsW 0 "minutes model call failed"
    (by decide) (fun _ => rfl) rfl

end Gov

